import Mathlib

set_option autoImplicit false

namespace FinTrack

/-!
Shallow embedding of the aggregation/reporting computations of the
fintrack-m7 client:

* `fetchSummaryData` in the Dashboard component (current-month income and
  expense totals, total bank balance, total asset value);
* `fetchReportData` in the Reports component (trailing six-month
  income/expense series; current-month expense breakdown by category).

Transaction dates are stored as ISO calendar-date strings (the form uses a
date input producing "YYYY-MM-DD"); the store compares them as strings,
which for this format is chronological order.  We embed a date as a linear
month index `ym` (year * 12 + month - 1) together with a day of month, and
the store's string comparison as lexicographic order on `(ym, day)`.
Monetary amounts are embedded as integers.
-/

/-- Calendar date: `ym` is the linear month index (year * 12 + month - 1),
`day` the day of month (1-based; real data satisfies 1 ≤ day ≤ 31). -/
structure Date where
  ym : Nat
  day : Nat
deriving DecidableEq, Repr

/-- Chronological comparison of dates, as the store's `gte` / `lte` string
comparison on ISO dates: lexicographic on `(ym, day)`. -/
def dateLe (a b : Date) : Bool :=
  Nat.blt a.ym b.ym || (a.ym == b.ym && Nat.ble a.day b.day)

/-- Day-of-month bounds that every real calendar date satisfies. -/
def validDay (d : Date) : Prop := 1 ≤ d.day ∧ d.day ≤ 31

instance (d : Date) : Decidable (validDay d) := by
  unfold validDay; infer_instance

/-- A transaction row as selected by the Dashboard and Reports queries:
`select('type, amount')` plus the `transaction_date` column the queries
filter on.  `type` is a string column holding "income" or "expense" for
well-formed rows. -/
structure Tx where
  type : String
  amount : Int
  transaction_date : Date
deriving DecidableEq, Repr

/-- Source: `startOfMonth(date)` (date-fns) and the Dashboard's
`d.setDate(1); d.setHours(0,0,0,0)`: first instant of the date's month. -/
def startOfMonth (d : Date) : Date := ⟨d.ym, 1⟩

/-- Source: `endOfMonth(date)` (date-fns): last instant of the date's
month.  The real last day is 28-31; taking day 31 is equivalent for the
inclusive upper bound, because no real date of the month exceeds its actual
last day and every real date has day ≤ 31. -/
def endOfMonth (d : Date) : Date := ⟨d.ym, 31⟩

/-- Source: `subMonths(date, i)` (date-fns): same day, `i` calendar months
earlier. -/
def subMonths (d : Date) (i : Nat) : Date := ⟨d.ym - i, d.day⟩

/-- Dashboard `fetchSummaryData`, transaction part.  The query filters the
user's transactions with `gte('transaction_date', startOfMonth)` only (no
upper bound), then
`filter(t => t.type === 'income').reduce((sum, t) => sum + Number(t.amount), 0)`
and likewise for `'expense'`.  The reference date `now` embeds the
`new Date()` the source reads at call time.  Returns (income, expense). -/
def monthlyTotals (txs : List Tx) (now : Date) : Int × Int :=
  let rows := txs.filter (fun t => dateLe (startOfMonth now) t.transaction_date)
  ((rows.filter (fun t => t.type == "income")).foldl (fun sum t => sum + t.amount) 0,
   (rows.filter (fun t => t.type == "expense")).foldl (fun sum t => sum + t.amount) 0)

/-- The Dashboard entry point reads the wall clock (`new Date()`) itself;
`wallClock` is that implicit read made explicit. -/
def fetchSummaryDataTotals (wallClock : Date) (txs : List Tx) : Int × Int :=
  monthlyTotals txs wallClock

/-- A bank-account row as selected by the Dashboard: `select('balance')`. -/
structure BankAccount where
  balance : Int
deriving DecidableEq, Repr

/-- An asset row as selected by the Dashboard: `select('current_value')`. -/
structure Asset where
  current_value : Int
deriving DecidableEq, Repr

/-- Source: `accounts?.reduce((sum, a) => sum + Number(a.balance), 0) || 0`. -/
def totalBankBalance (accounts : List BankAccount) : Int :=
  accounts.foldl (fun sum a => sum + a.balance) 0

/-- Source: `assets?.reduce((sum, a) => sum + Number(a.current_value), 0) || 0`. -/
def totalAssets (assets : List Asset) : Int :=
  assets.foldl (fun sum a => sum + a.current_value) 0

/-- Short month names produced by date-fns `format(date, 'MMM')` with the
Indonesian locale, indexed by month of year. -/
def monthShortNames : List String :=
  ["Jan", "Feb", "Mar", "Apr", "Mei", "Jun", "Jul", "Agu", "Sep", "Okt", "Nov", "Des"]

/-- Month label of a date: `format(date, 'MMM', \x7b locale: localeID \x7d)`. -/
def monthName (d : Date) : String := monthShortNames.getD (d.ym % 12) ""

/-- One entry of the six-month series (interface `MonthlySummary`). -/
structure MonthlySummary where
  month : String
  income : Int
  expense : Int
deriving DecidableEq, Repr, Inhabited

/-- The per-month query of `fetchReportData`:
`gte('transaction_date', startOfMonth(date)).lte('transaction_date', endOfMonth(date))`
over the user's transactions. -/
def monthRows (txs : List Tx) (d : Date) : List Tx :=
  txs.filter (fun t =>
    dateLe (startOfMonth d) t.transaction_date && dateLe t.transaction_date (endOfMonth d))

/-- One element of `summaryData` in `fetchReportData`: the month label and
the income/expense sums
`result.data?.filter(t => t.type === 'income').reduce((sum, t) => sum + t.amount, 0) || 0`
over that month's query result. -/
def monthSummary (txs : List Tx) (d : Date) : MonthlySummary :=
  { month := monthName d
    income := ((monthRows txs d).filter (fun t => t.type == "income")).foldl
      (fun sum t => sum + t.amount) 0
    expense := ((monthRows txs d).filter (fun t => t.type == "expense")).foldl
      (fun sum t => sum + t.amount) 0 }

/-- The six-month series of `fetchReportData`: the loop
`for (let i = 5; i >= 0; i--)` queries month `subMonths(now, i)`, and
`monthlyResults.map((result, i) => ...)` labels entry `i` with month
`subMonths(now, 5 - i)`; so entry `i` covers month `subMonths(now, n-1-i)`.
The source hard-codes `n = 6`; the window size is the parameter `n` here.
The source re-reads `new Date()` inside the map; `now` embeds a single
stable read of the clock during the call. -/
def trailingSeries (n : Nat) (now : Date) (txs : List Tx) : List MonthlySummary :=
  (List.range n).map (fun i => monthSummary txs (subMonths now (n - 1 - i)))

/-- The Reports entry point reads the wall clock implicitly; `wallClock` is
that read made explicit. -/
def fetchReportDataSeries (wallClock : Date) (txs : List Tx) : List MonthlySummary :=
  trailingSeries 6 wallClock txs

/-- The joined category of an expense row: `categories(name, color)`.
`name` is a non-null string column, `color` nullable. -/
structure CategoryJoin where
  name : String
  color : Option String
deriving DecidableEq, Repr

/-- A current-month expense row as selected by `fetchReportData`:
`select('amount, categories(name, color)')`; `categories` is null when the
transaction has no linked category. -/
structure ExpenseRow where
  amount : Int
  categories : Option CategoryJoin
deriving DecidableEq, Repr

/-- JavaScript `s || d` on strings: the empty string is falsy. -/
def jsOr (s d : String) : String := if s = "" then d else s

/-- Source: `t.categories?.name || 'Lain-lain'` - the grouping key of a
row: the category name when linked and non-empty, else the sentinel. -/
def effName (t : ExpenseRow) : String :=
  match t.categories with
  | none => "Lain-lain"
  | some c => jsOr c.name "Lain-lain"

/-- Source: `t.categories?.color || '#8884d8'` - the color recorded when a
group is first created. -/
def effColor (t : ExpenseRow) : String :=
  match t.categories with
  | none => "#8884d8"
  | some c =>
    match c.color with
    | none => "#8884d8"
    | some s => jsOr s "#8884d8"

/-- The per-group accumulator value `\x7b value, color \x7d` of
`expenseByCategory`. -/
structure GroupAcc where
  value : Int
  color : String
deriving DecidableEq, Repr

/-- One `forEach` step of the source's accumulation into the keyed object:
`if (!expenseByCategory[name]) expenseByCategory[name] = \x7b value: 0, color \x7d;`
`expenseByCategory[name].value += t.amount;`
A fresh key is appended (JavaScript objects iterate string keys in
insertion order); an existing key keeps its place and color and adds the
amount. -/
def updateGroup : List (String × GroupAcc) → String → Int → String → List (String × GroupAcc)
  | [], name, amt, col => [(name, ⟨amt, col⟩)]
  | (k, g) :: rest, name, amt, col =>
    if k = name then (k, ⟨g.value + amt, g.color⟩) :: rest
    else (k, g) :: updateGroup rest name amt col

/-- The accumulation step applied to one expense row. -/
def stepGroup (acc : List (String × GroupAcc)) (t : ExpenseRow) : List (String × GroupAcc) :=
  updateGroup acc (effName t) t.amount (effColor t)

/-- Source: the `expenseByCategory` object after the `forEach` over the
current-month expense rows, as an insertion-ordered association list. -/
def expenseByCategory (txs : List ExpenseRow) : List (String × GroupAcc) :=
  txs.foldl stepGroup []

/-- One output group of the breakdown (interface `CategoryExpense`). -/
structure CategoryExpense where
  name : String
  value : Int
  color : String
deriving DecidableEq, Repr

/-- Source: `Object.keys(expenseByCategory).map(key => (\x7b name, value, color \x7d))`. -/
def pieData (txs : List ExpenseRow) : List CategoryExpense :=
  (expenseByCategory txs).map (fun p => ⟨p.1, p.2.value, p.2.color⟩)

/-- The fixed palette `COLORS` of the Reports component. -/
def COLORS : List String :=
  ["#6366F1", "#8B5CF6", "#EC4899", "#F59E0B", "#10B981", "#3B82F6"]

/-- The pie-cell fill of the Reports render:
`fill=\x7b entry.color || COLORS[index % COLORS.length] \x7d`. -/
def cellFill (entry : CategoryExpense) (index : Nat) : String :=
  jsOr entry.color (COLORS.getD (index % COLORS.length) "")

/-- The monthly-totals computation as the specification words it: filter to
transactions whose occurrence date falls within
[startOfMonth(now), endOfMonth(now)], then sum amounts by kind.  Written
from the spec sentence, to be compared with the source's `monthlyTotals`. -/
def specMonthlyTotals (txs : List Tx) (now : Date) : Int × Int :=
  let rows := txs.filter (fun t =>
    dateLe (startOfMonth now) t.transaction_date
      && dateLe t.transaction_date (endOfMonth now))
  ((rows.filter (fun t => t.type == "income")).foldl (fun sum t => sum + t.amount) 0,
   (rows.filter (fun t => t.type == "expense")).foldl (fun sum t => sum + t.amount) 0)

/-- Income and expense sums, by kind, over the rows dated at or after the
start of the month of `now` - the filter the source actually applies,
stated through `List.sum`. -/
def lowerBoundedTotals (txs : List Tx) (now : Date) : Int × Int :=
  let rows := txs.filter (fun t => dateLe (startOfMonth now) t.transaction_date)
  (((rows.filter (fun t => t.type == "income")).map (fun t => t.amount)).sum,
   ((rows.filter (fun t => t.type == "expense")).map (fun t => t.amount)).sum)

/-- The grouping key named by the specification: the linked category's name
when a category is present, else the sentinel label. -/
def claimGroupKey (t : ExpenseRow) : String :=
  match t.categories with
  | none => "Lain-lain"
  | some c => c.name

/-- Sum of the amounts of the rows whose effective grouping key is `l`. -/
def groupTotal (txs : List ExpenseRow) (l : String) : Int :=
  ((txs.filter (fun t => effName t == l)).map (fun t => t.amount)).sum

/-- Sum of the amounts of the rows whose specification grouping key is `l`. -/
def claimGroupTotal (txs : List ExpenseRow) (l : String) : Int :=
  ((txs.filter (fun t => claimGroupKey t == l)).map (fun t => t.amount)).sum

/-- Income sum, by kind, over the transactions dated in linear month `m`. -/
def incomeOfYm (txs : List Tx) (m : Nat) : Int :=
  (((txs.filter (fun t => t.transaction_date.ym == m)).filter
    (fun t => t.type == "income")).map (fun t => t.amount)).sum

/-- Expense sum over the transactions dated in linear month `m`. -/
def expenseOfYm (txs : List Tx) (m : Nat) : Int :=
  (((txs.filter (fun t => t.transaction_date.ym == m)).filter
    (fun t => t.type == "expense")).map (fun t => t.amount)).sum

/-- Association-list lookup, mirroring the object read
`expenseByCategory[name]`. -/
def lookupGroup : List (String × GroupAcc) → String → Option GroupAcc
  | [], _ => none
  | (k, g) :: rest, l => if k = l then some g else lookupGroup rest l

/-- The keys of the accumulator object, in iteration order. -/
def groupKeys (acc : List (String × GroupAcc)) : List String := acc.map Prod.fst

/-- Sum of the accumulated group values. -/
def sumValues (acc : List (String × GroupAcc)) : Int :=
  (acc.map (fun p => p.2.value)).sum

section ListLemmas

variable {α : Type}

theorem foldl_add_map (f : α → Int) (l : List α) (s : Int) :
    l.foldl (fun sum a => sum + f a) s = s + (l.map f).sum := by
  induction l generalizing s with
  | nil => simp
  | cons a rest ih => simp [List.foldl_cons, ih, add_assoc]

theorem sum_map_filter_or (f : α → Int) (p q : α → Bool) (l : List α)
    (h : ∀ a ∈ l, ¬(p a = true ∧ q a = true)) :
    ((l.filter (fun a => p a || q a)).map f).sum
      = ((l.filter p).map f).sum + ((l.filter q).map f).sum := by
  induction l with
  | nil => simp
  | cons a rest ih =>
    have hrest : ∀ b ∈ rest, ¬(p b = true ∧ q b = true) :=
      fun b hb => h b (List.mem_cons_of_mem _ hb)
    have ih' := ih hrest
    cases hp : p a <;> cases hq : q a
    · simp [List.filter_cons, hp, hq, ih']
    · simp [List.filter_cons, hp, hq, ih']
      ring
    · simp [List.filter_cons, hp, hq, ih']
      ring
    · exact absurd ⟨hp, hq⟩ (h a (List.mem_cons_self a rest))

theorem filter_comm_bool (p q : α → Bool) (l : List α) :
    (l.filter p).filter q = (l.filter q).filter p := by
  induction l with
  | nil => rfl
  | cons a rest ih =>
    cases hp : p a <;> cases hq : q a <;>
      simp [List.filter_cons, hp, hq, ih]

theorem filter_absorb (p q : α → Bool) (l : List α)
    (h : ∀ a, q a = true → p a = true) :
    (l.filter p).filter q = l.filter q := by
  induction l with
  | nil => rfl
  | cons a rest ih =>
    cases hq : q a
    · cases hp : p a <;> simp [List.filter_cons, hp, hq, ih]
    · have hp : p a = true := h a hq
      simp [List.filter_cons, hp, hq, ih]

end ListLemmas

section DateLemmas

/-- A date passes both bounds of month `d`'s query exactly when it lies in
that calendar month, for real (valid-day) dates. -/
theorem monthRows_eq_filter_ym (txs : List Tx) (d : Date)
    (hday : ∀ t ∈ txs, validDay t.transaction_date) :
    monthRows txs d = txs.filter (fun t => t.transaction_date.ym == d.ym) := by
  unfold monthRows
  apply List.filter_congr
  intro t ht
  have hv := hday t ht
  unfold validDay at hv
  rw [Bool.eq_iff_iff]
  simp only [dateLe, startOfMonth, endOfMonth, Bool.and_eq_true, Bool.or_eq_true,
    Nat.blt_eq, Nat.ble_eq, beq_iff_eq]
  omega

/-- A month having no transactions makes its query result empty (this
direction needs no day-validity). -/
theorem monthRows_eq_nil (txs : List Tx) (d : Date)
    (h : ∀ t ∈ txs, t.transaction_date.ym ≠ d.ym) :
    monthRows txs d = [] := by
  unfold monthRows
  rw [List.filter_eq_nil_iff]
  intro t ht
  have hne := h t ht
  simp only [dateLe, startOfMonth, endOfMonth, Bool.and_eq_true, Bool.or_eq_true,
    Nat.blt_eq, Nat.ble_eq, beq_iff_eq, not_and, not_or]
  omega

theorem monthSummary_income (txs : List Tx) (d : Date)
    (hday : ∀ t ∈ txs, validDay t.transaction_date) :
    (monthSummary txs d).income = incomeOfYm txs d.ym := by
  simp only [monthSummary, incomeOfYm, monthRows_eq_filter_ym txs d hday]
  rw [foldl_add_map]
  simp

theorem monthSummary_expense (txs : List Tx) (d : Date)
    (hday : ∀ t ∈ txs, validDay t.transaction_date) :
    (monthSummary txs d).expense = expenseOfYm txs d.ym := by
  simp only [monthSummary, expenseOfYm, monthRows_eq_filter_ym txs d hday]
  rw [foldl_add_map]
  simp

theorem monthSummary_zero (txs : List Tx) (d : Date)
    (h : ∀ t ∈ txs, t.transaction_date.ym ≠ d.ym) :
    (monthSummary txs d).income = 0 ∧ (monthSummary txs d).expense = 0 := by
  unfold monthSummary
  rw [monthRows_eq_nil txs d h]
  simp

end DateLemmas

section GroupLemmas
theorem groupTotal_cons (t : ExpenseRow) (rest : List ExpenseRow) (l : String) :
    groupTotal (t :: rest) l =
      if effName t = l then t.amount + groupTotal rest l else groupTotal rest l := by
  unfold groupTotal
  by_cases h : effName t = l <;> simp [List.filter_cons, h]

theorem lookupGroup_updateGroup (acc : List (String × GroupAcc)) (n l : String)
    (a : Int) (c : String) :
    lookupGroup (updateGroup acc n a c) l =
      if l = n then
        match lookupGroup acc n with
        | some g => some ⟨g.value + a, g.color⟩
        | none => some ⟨a, c⟩
      else lookupGroup acc l := by
  induction acc with
  | nil =>
    by_cases h : l = n
    · simp [updateGroup, lookupGroup, h]
    · have h2 : ¬n = l := fun hh => h hh.symm
      simp [updateGroup, lookupGroup, h, h2]
  | cons p rest ih =>
    obtain ⟨k, g⟩ := p
    by_cases hk : k = n
    · subst hk
      by_cases hl : k = l
      · subst hl
        simp [updateGroup, lookupGroup]
      · have hl' : ¬l = k := fun h => hl h.symm
        simp [updateGroup, lookupGroup, hl, hl']
    · by_cases hl : k = l
      · subst hl
        have hl' : ¬k = n := hk
        have hl2 : ¬n = k := fun h => hk h.symm
        simp [updateGroup, lookupGroup, hk, hl2]
      · simp [updateGroup, lookupGroup, hk, hl, ih]

theorem lookupGroup_foldl (txs : List ExpenseRow) (acc : List (String × GroupAcc))
    (l : String) :
    lookupGroup (txs.foldl stepGroup acc) l =
      match lookupGroup acc l with
      | some g => some ⟨g.value + groupTotal txs l, g.color⟩
      | none =>
        match txs.find? (fun t => effName t == l) with
        | some t0 => some ⟨groupTotal txs l, effColor t0⟩
        | none => none := by
  induction txs generalizing acc with
  | nil =>
    cases hacc : lookupGroup acc l <;> simp [groupTotal, hacc]
  | cons t rest ih =>
    simp only [List.foldl_cons]
    rw [ih]
    rw [show stepGroup acc t = updateGroup acc (effName t) t.amount (effColor t) from rfl]
    rw [lookupGroup_updateGroup]
    by_cases hl : l = effName t
    · subst hl
      cases hacc : lookupGroup acc (effName t) <;>
        simp [hacc, groupTotal_cons, List.find?_cons, add_assoc]
    · have h2 : ¬effName t = l := fun h => hl h.symm
      have hne : (effName t == l) = false := by
        simp only [beq_eq_false_iff_ne, ne_eq]
        exact h2
      simp only [if_neg hl, groupTotal_cons, List.find?_cons, hne, if_neg h2]

theorem groupKeys_updateGroup (acc : List (String × GroupAcc)) (n : String)
    (a : Int) (c : String) :
    groupKeys (updateGroup acc n a c) =
      if n ∈ groupKeys acc then groupKeys acc else groupKeys acc ++ [n] := by
  induction acc with
  | nil => simp [updateGroup, groupKeys]
  | cons p rest ih =>
    obtain ⟨k, g⟩ := p
    by_cases hk : k = n
    · subst hk
      simp [updateGroup, groupKeys, List.mem_cons]
    · have hk' : ¬n = k := fun h => hk h.symm
      have ih' := ih
      simp only [groupKeys] at ih'
      by_cases hn : n ∈ groupKeys rest
      · have hn' : n ∈ List.map Prod.fst rest := hn
        simp only [updateGroup, if_neg hk, groupKeys, List.map_cons, List.mem_cons]
        rw [ih']
        simp [hn', hk']
      · have hn' : ¬n ∈ List.map Prod.fst rest := hn
        simp only [updateGroup, if_neg hk, groupKeys, List.map_cons, List.mem_cons]
        rw [ih']
        simp [hn', hk']

theorem nodup_groupKeys_updateGroup (acc : List (String × GroupAcc)) (n : String)
    (a : Int) (c : String) (h : (groupKeys acc).Nodup) :
    (groupKeys (updateGroup acc n a c)).Nodup := by
  rw [groupKeys_updateGroup]
  by_cases hn : n ∈ groupKeys acc
  · simpa [hn] using h
  · simp only [if_neg hn]
    rw [List.nodup_append]
    refine ⟨h, List.nodup_singleton n, ?_⟩
    intro x hx hxn
    simp only [List.mem_singleton] at hxn
    subst hxn
    exact hn hx

theorem nodup_groupKeys_foldl (txs : List ExpenseRow) (acc : List (String × GroupAcc))
    (h : (groupKeys acc).Nodup) :
    (groupKeys (txs.foldl stepGroup acc)).Nodup := by
  induction txs generalizing acc with
  | nil => exact h
  | cons t rest ih =>
    exact ih _ (nodup_groupKeys_updateGroup _ _ _ _ h)

theorem lookupGroup_of_mem (acc : List (String × GroupAcc)) (k : String) (g : GroupAcc)
    (hnd : (groupKeys acc).Nodup) (hm : (k, g) ∈ acc) :
    lookupGroup acc k = some g := by
  induction acc with
  | nil => cases hm
  | cons p rest ih =>
    obtain ⟨k', g'⟩ := p
    have hnd2 : ¬k' ∈ List.map Prod.fst rest ∧ (List.map Prod.fst rest).Nodup := by
      have h0 := hnd
      simp only [groupKeys, List.map_cons, List.nodup_cons] at h0
      exact h0
    rcases List.mem_cons.mp hm with heq | hmem
    · obtain ⟨hk, hg⟩ := Prod.mk.inj heq
      subst hk
      subst hg
      simp [lookupGroup]
    · have hk' : ¬k' = k := by
        intro hkk
        subst hkk
        have hmemk : k' ∈ List.map Prod.fst rest :=
          List.mem_map.mpr ⟨(k', g), hmem, rfl⟩
        exact hnd2.1 hmemk
      have hndrest : (groupKeys rest).Nodup := hnd2.2
      simp [lookupGroup, hk', ih hndrest hmem]

theorem lookupGroup_eq_none_iff (acc : List (String × GroupAcc)) (l : String) :
    lookupGroup acc l = none ↔ ¬l ∈ groupKeys acc := by
  induction acc with
  | nil => simp [lookupGroup, groupKeys]
  | cons p rest ih =>
    obtain ⟨k, g⟩ := p
    by_cases hk : k = l
    · subst hk
      simp [lookupGroup, groupKeys]
    · have hk' : ¬l = k := fun h => hk h.symm
      simp only [lookupGroup, if_neg hk, groupKeys, List.map_cons, List.mem_cons]
      rw [ih]
      simp only [groupKeys]
      constructor
      · intro h hor
        rcases hor with h1 | h2
        · exact hk' h1
        · exact h h2
      · intro h hmem
        exact h (Or.inr hmem)

theorem sumValues_updateGroup (acc : List (String × GroupAcc)) (n : String)
    (a : Int) (c : String) :
    sumValues (updateGroup acc n a c) = sumValues acc + a := by
  induction acc with
  | nil => simp [updateGroup, sumValues]
  | cons p rest ih =>
    obtain ⟨k, g⟩ := p
    by_cases hk : k = n
    · subst hk
      simp [updateGroup, sumValues, add_assoc, add_comm, add_left_comm]
    · have ih' := ih
      simp only [sumValues] at ih'
      simp only [updateGroup, if_neg hk, sumValues, List.map_cons, List.sum_cons]
      rw [ih']
      ring

theorem sumValues_foldl (txs : List ExpenseRow) (acc : List (String × GroupAcc)) :
    sumValues (txs.foldl stepGroup acc)
      = sumValues acc + (txs.map (fun t => t.amount)).sum := by
  induction txs generalizing acc with
  | nil => simp
  | cons t rest ih =>
    simp only [List.foldl_cons, List.map_cons, List.sum_cons]
    rw [ih, show stepGroup acc t = updateGroup acc (effName t) t.amount (effColor t) from rfl,
      sumValues_updateGroup]
    ring

theorem pieData_names_eq (txs : List ExpenseRow) :
    (pieData txs).map (fun e => e.name) = groupKeys (expenseByCategory txs) := by
  simp only [pieData, groupKeys, List.map_map]
  rfl

theorem nodup_pieData_names (txs : List ExpenseRow) :
    ((pieData txs).map (fun e => e.name)).Nodup := by
  rw [pieData_names_eq]
  exact nodup_groupKeys_foldl txs [] (by simp [groupKeys])

theorem pieData_entry_char (txs : List ExpenseRow) (e : CategoryExpense)
    (he : e ∈ pieData txs) :
    e.value = groupTotal txs e.name ∧
      ∃ t0, txs.find? (fun t => effName t == e.name) = some t0 ∧ e.color = effColor t0 := by
  obtain ⟨p, hp, hpe⟩ := List.mem_map.mp he
  obtain ⟨k, g⟩ := p
  have hname : e.name = k := by rw [← hpe]
  have hval : e.value = g.value := by rw [← hpe]
  have hcol : e.color = g.color := by rw [← hpe]
  have hlook : lookupGroup (expenseByCategory txs) k = some g :=
    lookupGroup_of_mem _ _ _ (nodup_groupKeys_foldl txs [] (by simp [groupKeys])) hp
  rw [show expenseByCategory txs = txs.foldl stepGroup [] from rfl] at hlook
  rw [lookupGroup_foldl] at hlook
  simp only [lookupGroup] at hlook
  cases hf : txs.find? (fun t => effName t == k) with
  | none => rw [hf] at hlook; cases hlook
  | some t0 =>
    rw [hf] at hlook
    have hg : g = ⟨groupTotal txs k, effColor t0⟩ := by
      injection hlook with hh
      exact hh.symm
    subst hname
    constructor
    · rw [hval, hg]
    · exact ⟨t0, hf, by rw [hcol, hg]⟩

theorem mem_pieData_names_iff (txs : List ExpenseRow) (l : String) :
    l ∈ (pieData txs).map (fun e => e.name) ↔ ∃ t ∈ txs, effName t = l := by
  rw [pieData_names_eq]
  have hnone : lookupGroup (expenseByCategory txs) l = none
      ↔ txs.find? (fun t => effName t == l) = none := by
    rw [show expenseByCategory txs = txs.foldl stepGroup [] from rfl, lookupGroup_foldl]
    simp only [lookupGroup]
    cases hf : txs.find? (fun t => effName t == l) with
    | none => simp
    | some t0 => simp
  have hkeys := lookupGroup_eq_none_iff (expenseByCategory txs) l
  constructor
  · intro hmem
    cases hf : txs.find? (fun t => effName t == l) with
    | none =>
      exact absurd hmem (hkeys.mp (hnone.mpr hf))
    | some t0 =>
      have hp := List.find?_some hf
      simp only [beq_iff_eq] at hp
      exact ⟨t0, List.mem_of_find?_eq_some hf, hp⟩
  · intro hex
    by_contra hmem
    have hn : lookupGroup (expenseByCategory txs) l = none := hkeys.mpr hmem
    have hfn := hnone.mp hn
    rw [List.find?_eq_none] at hfn
    obtain ⟨t, ht, hname⟩ := hex
    exact hfn t ht (by simp [hname])

theorem groupTotal_perm (txs txs' : List ExpenseRow) (l : String)
    (h : txs.Perm txs') : groupTotal txs l = groupTotal txs' l := by
  unfold groupTotal
  exact List.Perm.sum_eq (List.Perm.map _ (List.Perm.filter _ h))

theorem effColor_ne_empty (t : ExpenseRow) : effColor t ≠ "" := by
  unfold effColor
  cases hc : t.categories with
  | none => simp
  | some c =>
    cases hcol : c.color with
    | none => simp [hcol]
    | some s =>
      simp only [hcol, jsOr]
      by_cases hs : s = "" <;> simp [hs]

theorem cellFill_of_ne_empty (e : CategoryExpense) (i : Nat) (h : e.color ≠ "") :
    cellFill e i = e.color := by
  unfold cellFill jsOr
  simp [h]
end GroupLemmas

section SeriesLemmas

theorem trailingSeries_length (n : Nat) (now : Date) (txs : List Tx) :
    (trailingSeries n now txs).length = n := by
  simp [trailingSeries]

theorem trailingSeries_getD (n : Nat) (now : Date) (txs : List Tx) (j : Nat)
    (hj : j < n) :
    (trailingSeries n now txs).getD j default
      = monthSummary txs (subMonths now (n - 1 - j)) := by
  unfold trailingSeries
  rw [List.getD_eq_getElem?_getD, List.getElem?_map, List.getElem?_range hj]
  rfl

theorem sum_over_months {α : Type} (ymOf : α → Nat) (f : α → Int) (l : List α)
    (ms : List Nat) (hnd : ms.Nodup) :
    (ms.map (fun m => ((l.filter (fun a => ymOf a == m)).map f).sum)).sum
      = ((l.filter (fun a => ms.contains (ymOf a))).map f).sum := by
  induction ms with
  | nil => simp
  | cons m rest ih =>
    have hm : ¬m ∈ rest := (List.nodup_cons.mp hnd).1
    have ih' := ih (List.nodup_cons.mp hnd).2
    simp only [List.map_cons, List.sum_cons, ih']
    have hsplit : l.filter (fun a => (m :: rest).contains (ymOf a))
        = l.filter (fun a => (ymOf a == m) || rest.contains (ymOf a)) := by
      apply List.filter_congr
      intro a _
      rw [Bool.eq_iff_iff]
      simp [List.contains_cons]
    rw [hsplit]
    rw [sum_map_filter_or f (fun a => ymOf a == m) (fun a => rest.contains (ymOf a)) l ?hdisj]
    case hdisj =>
      intro a _ h12
      obtain ⟨h1, h2⟩ := h12
      simp only [beq_iff_eq] at h1
      have h3 : ymOf a ∈ rest := by simpa using h2
      rw [h1] at h3
      exact hm h3

/-- The covered window of the trailing series, written with the lower
bound `now.ym - (n - 1)`. -/
theorem window_months_eq (n : Nat) (now : Date) (hym : n - 1 ≤ now.ym) :
    (List.range n).map (fun i => now.ym - (n - 1 - i))
      = (List.range n).map (fun i => (now.ym - (n - 1)) + i) := by
  apply List.map_congr_left
  intro i hi
  rw [List.mem_range] at hi
  omega

theorem window_months_nodup (n : Nat) (now : Date) (hym : n - 1 ≤ now.ym) :
    ((List.range n).map (fun i => now.ym - (n - 1 - i))).Nodup := by
  rw [window_months_eq n now hym]
  refine List.Nodup.map ?_ (List.nodup_range n)
  intro a b hab
  have hab2 : (now.ym - (n - 1)) + a = (now.ym - (n - 1)) + b := hab
  omega

theorem window_contains_iff (n : Nat) (now : Date) (m : Nat) (hn : 1 ≤ n)
    (hym : n - 1 ≤ now.ym) :
    ((List.range n).map (fun i => now.ym - (n - 1 - i))).contains m
      = (Nat.ble (now.ym - (n - 1)) m && Nat.ble m now.ym) := by
  rw [window_months_eq n now hym, Bool.eq_iff_iff]
  simp only [Bool.and_eq_true, Nat.ble_eq]
  constructor
  · intro h
    have hmem : m ∈ (List.range n).map (fun i => (now.ym - (n - 1)) + i) := by
      simpa using h
    obtain ⟨i, hi, hmi⟩ := List.mem_map.mp hmem
    rw [List.mem_range] at hi
    omega
  · intro h12
    obtain ⟨h1, h2⟩ := h12
    have hmem : m ∈ (List.range n).map (fun i => (now.ym - (n - 1)) + i) := by
      refine List.mem_map.mpr ⟨m - (now.ym - (n - 1)), ?_, ?_⟩
      · rw [List.mem_range]
        omega
      · show (now.ym - (n - 1)) + (m - (now.ym - (n - 1))) = m
        omega
    simpa using hmem

theorem monthlyTotals_eq_lowerBounded (txs : List Tx) (now : Date) :
    monthlyTotals txs now = lowerBoundedTotals txs now := by
  simp only [monthlyTotals, lowerBoundedTotals]
  rw [foldl_add_map, foldl_add_map]
  simp

theorem monthSummary_known (txs : List Tx) (d : Date) :
    monthSummary (txs.filter (fun t => t.type == "income" || t.type == "expense")) d
      = monthSummary txs d := by
  simp only [monthSummary, monthRows]
  rw [filter_comm_bool (fun t : Tx => t.type == "income" || t.type == "expense")
    (fun t => dateLe (startOfMonth d) t.transaction_date
      && dateLe t.transaction_date (endOfMonth d)) txs]
  have h1 : (((txs.filter (fun t =>
      dateLe (startOfMonth d) t.transaction_date
        && dateLe t.transaction_date (endOfMonth d))).filter
      (fun t => t.type == "income" || t.type == "expense")).filter
      (fun t => t.type == "income"))
      = (txs.filter (fun t =>
          dateLe (startOfMonth d) t.transaction_date
            && dateLe t.transaction_date (endOfMonth d))).filter
          (fun t => t.type == "income") := by
    apply filter_absorb
    intro a h
    rw [h]
    rfl
  have h2 : (((txs.filter (fun t =>
      dateLe (startOfMonth d) t.transaction_date
        && dateLe t.transaction_date (endOfMonth d))).filter
      (fun t => t.type == "income" || t.type == "expense")).filter
      (fun t => t.type == "expense"))
      = (txs.filter (fun t =>
          dateLe (startOfMonth d) t.transaction_date
            && dateLe t.transaction_date (endOfMonth d))).filter
          (fun t => t.type == "expense") := by
    apply filter_absorb
    intro a h
    rw [h]
    simp
  rw [h1, h2]

theorem monthlyTotals_known (txs : List Tx) (now : Date) :
    monthlyTotals (txs.filter (fun t => t.type == "income" || t.type == "expense")) now
      = monthlyTotals txs now := by
  simp only [monthlyTotals]
  rw [filter_comm_bool (fun t : Tx => t.type == "income" || t.type == "expense")
    (fun t => dateLe (startOfMonth now) t.transaction_date) txs]
  have h1 : (((txs.filter (fun t =>
      dateLe (startOfMonth now) t.transaction_date)).filter
      (fun t => t.type == "income" || t.type == "expense")).filter
      (fun t => t.type == "income"))
      = (txs.filter (fun t => dateLe (startOfMonth now) t.transaction_date)).filter
          (fun t => t.type == "income") := by
    apply filter_absorb
    intro a h
    rw [h]
    rfl
  have h2 : (((txs.filter (fun t =>
      dateLe (startOfMonth now) t.transaction_date)).filter
      (fun t => t.type == "income" || t.type == "expense")).filter
      (fun t => t.type == "expense"))
      = (txs.filter (fun t => dateLe (startOfMonth now) t.transaction_date)).filter
          (fun t => t.type == "expense") := by
    apply filter_absorb
    intro a h
    rw [h]
    simp
  rw [h1, h2]

theorem trailingSeries_known (n : Nat) (now : Date) (txs : List Tx) :
    trailingSeries n now (txs.filter (fun t => t.type == "income" || t.type == "expense"))
      = trailingSeries n now txs := by
  unfold trailingSeries
  apply List.map_congr_left
  intro i _
  exact monthSummary_known txs (subMonths now (n - 1 - i))

theorem incomeOfYm_comm (txs : List Tx) (m : Nat) :
    incomeOfYm txs m
      = (((txs.filter (fun t => t.type == "income")).filter
          (fun t => t.transaction_date.ym == m)).map (fun t => t.amount)).sum := by
  unfold incomeOfYm
  rw [filter_comm_bool]

theorem expenseOfYm_comm (txs : List Tx) (m : Nat) :
    expenseOfYm txs m
      = (((txs.filter (fun t => t.type == "expense")).filter
          (fun t => t.transaction_date.ym == m)).map (fun t => t.amount)).sum := by
  unfold expenseOfYm
  rw [filter_comm_bool]

/-- Summing the per-month totals of one kind over the window of the
trailing series counts every row of a covered month exactly once. -/
theorem series_window_sum (txs : List Tx) (now : Date) (n : Nat) (kind : String)
    (hn : 1 ≤ n) (hym : n - 1 ≤ now.ym) :
    ((List.range n).map (fun i =>
      (((txs.filter (fun t => t.type == kind)).filter
        (fun t => t.transaction_date.ym == now.ym - (n - 1 - i))).map
        (fun t => t.amount)).sum)).sum
      = (((txs.filter (fun t => Nat.ble (now.ym - (n - 1)) t.transaction_date.ym
          && Nat.ble t.transaction_date.ym now.ym)).filter
          (fun t => t.type == kind)).map (fun t => t.amount)).sum := by
  have h1 : ((List.range n).map (fun i =>
      (((txs.filter (fun t => t.type == kind)).filter
        (fun t => t.transaction_date.ym == now.ym - (n - 1 - i))).map
        (fun t => t.amount)).sum))
      = ((List.range n).map (fun i => now.ym - (n - 1 - i))).map (fun m =>
          (((txs.filter (fun t => t.type == kind)).filter
            (fun t => t.transaction_date.ym == m)).map (fun t => t.amount)).sum) := by
    rw [List.map_map]
    rfl
  rw [h1]
  rw [sum_over_months (fun t => t.transaction_date.ym) (fun t => t.amount)
    (txs.filter (fun t => t.type == kind)) _ (window_months_nodup n now hym)]
  have h2 : (txs.filter (fun t => t.type == kind)).filter
      (fun t => ((List.range n).map (fun i => now.ym - (n - 1 - i))).contains
        t.transaction_date.ym)
      = (txs.filter (fun t => t.type == kind)).filter
        (fun t => Nat.ble (now.ym - (n - 1)) t.transaction_date.ym
          && Nat.ble t.transaction_date.ym now.ym) := by
    apply List.filter_congr
    intro t _
    exact window_contains_iff n now t.transaction_date.ym hn hym
  rw [h2]
  rw [filter_comm_bool]

/-- Key equality of the grouping keys when linked category names are
non-empty. -/
theorem claimGroupKey_eq_effName (t : ExpenseRow)
    (h : ∀ c, t.categories = some c → c.name ≠ "") :
    claimGroupKey t = effName t := by
  unfold claimGroupKey effName
  cases hc : t.categories with
  | none => rfl
  | some c =>
    have hn := h c hc
    simp [jsOr, hn]

theorem pieData_value_sum (txs : List ExpenseRow) :
    ((pieData txs).map (fun e => e.value)).sum = (txs.map (fun t => t.amount)).sum := by
  have h1 : (pieData txs).map (fun e => e.value)
      = (expenseByCategory txs).map (fun p => p.2.value) := by
    simp only [pieData, List.map_map]
    rfl
  have h2 : ((expenseByCategory txs).map (fun p => p.2.value)).sum
      = sumValues (expenseByCategory txs) := rfl
  rw [h1, h2, show expenseByCategory txs = txs.foldl stepGroup [] from rfl, sumValues_foldl]
  simp [sumValues]

theorem nodup_all_eq_singleton (L : List String) (l0 : String) (hnd : L.Nodup)
    (hall : ∀ x ∈ L, x = l0) (hne : L ≠ []) : L = [l0] := by
  cases L with
  | nil => exact absurd rfl hne
  | cons x rest =>
    have hx : x = l0 := hall x (List.mem_cons_self x rest)
    subst hx
    cases rest with
    | nil => rfl
    | cons y rest2 =>
      have hy : y = x := hall y (by simp)
      subst hy
      have hnotin := (List.nodup_cons.mp hnd).1
      exact absurd (by simp) hnotin

end SeriesLemmas

section Claims

/-- Claim C1 (code bug): the claim states that monthly totals cover only
`[startOfMonth(now), endOfMonth(now)]`, and the code's own comment says it
fetches "current month transactions", but the Dashboard query has no upper
bound.  At the failing input - a single expense of 50 dated 2024-06-01 with
`now` = 2024-05-15 - the code returns expense 50 where the claim requires
that a transaction outside May contribute to neither total: the
month-window filter of the specification yields (0, 0).  The spec scenario
(May income 1000, May expense 400, April expense 200 → (1000, 400), the
April expense excluded) does hold, because the April row fails the lower
bound.  Dates are written as ⟨year * 12 + month - 1, day⟩. -/
theorem claimC1_code_at_failing_input :
    monthlyTotals [⟨"expense", 50, ⟨24293, 1⟩⟩] ⟨24292, 15⟩ = (0, 50)
    ∧ specMonthlyTotals [⟨"expense", 50, ⟨24293, 1⟩⟩] ⟨24292, 15⟩ = (0, 0)
    ∧ monthlyTotals [⟨"income", 1000, ⟨24292, 10⟩⟩, ⟨"expense", 400, ⟨24292, 12⟩⟩,
        ⟨"expense", 200, ⟨24291, 1⟩⟩] ⟨24292, 15⟩ = (1000, 400) := by
  refine ⟨by decide, by decide, by decide⟩

/-- Claim C2, counterexample: a transaction whose kind is "transfer"
(outside the closed set) does not make the monthly totals or the trailing
series fail; both succeed, and the row contributes nothing - the result
equals the result on the input with the row removed.  No data-integrity
error exists in these computations. -/
theorem claimC2_counterexample :
    monthlyTotals [⟨"transfer", 999, ⟨24292, 10⟩⟩] ⟨24292, 15⟩ = (0, 0)
    ∧ trailingSeries 6 ⟨24292, 15⟩ [⟨"transfer", 999, ⟨24292, 10⟩⟩]
        = trailingSeries 6 ⟨24292, 15⟩ [] := by
  refine ⟨by decide, by decide⟩

/-- Claim C2 as amended: transactions whose kind is outside
\x7bincome, expense\x7d are silently excluded from both the monthly totals
and the trailing series - each computation equals itself on the input
restricted to known kinds - and the computations are total, never
signalling an error. -/
theorem claimC2_amended (txs : List Tx) (now : Date) (n : Nat) :
    monthlyTotals txs now
      = monthlyTotals (txs.filter (fun t => t.type == "income" || t.type == "expense")) now
    ∧ trailingSeries n now txs
      = trailingSeries n now (txs.filter (fun t => t.type == "income" || t.type == "expense")) :=
  ⟨(monthlyTotals_known txs now).symm, (trailingSeries_known n now txs).symm⟩

/-- Claim C3, counterexample: a group whose category has no explicit color
is assigned the constant "#8884d8" by the breakdown, not the palette entry
at its output position; the rendered cell fill also stays "#8884d8"
because the palette fallback only fires on an empty-string color. -/
theorem claimC3_counterexample :
    pieData [⟨100, none⟩] = [⟨"Lain-lain", 100, "#8884d8"⟩]
    ∧ cellFill ⟨"Lain-lain", 100, "#8884d8"⟩ 0 = "#8884d8"
    ∧ COLORS.getD (0 % COLORS.length) "" = "#6366F1"
    ∧ ("#8884d8" : String) ≠ "#6366F1" := by
  refine ⟨by decide, by decide, by decide, by decide⟩

/-- Claim C3 as amended: every group emitted by the breakdown carries a
non-empty color (the category color when truthy, else the constant
"#8884d8"), so the render-layer palette fallback
COLORS[index % COLORS.length] never applies and each cell's fill equals
the group's stored color at every index. -/
theorem claimC3_amended (txs : List ExpenseRow) (e : CategoryExpense) (i : Nat)
    (he : e ∈ pieData txs) :
    e.color ≠ "" ∧ cellFill e i = e.color := by
  obtain ⟨hval, t0, hf, hc⟩ := pieData_entry_char txs e he
  have hne : e.color ≠ "" := by
    rw [hc]
    exact effColor_ne_empty t0
  exact ⟨hne, cellFill_of_ne_empty e i hne⟩

/-- Witness for C3 at a concrete input: the group of a single
uncategorized expense of 7. -/
theorem claimC3_witness :
    (⟨"Lain-lain", 7, "#8884d8"⟩ : CategoryExpense) ∈ pieData [⟨7, none⟩]
    ∧ ((⟨"Lain-lain", 7, "#8884d8"⟩ : CategoryExpense).color ≠ ""
      ∧ cellFill ⟨"Lain-lain", 7, "#8884d8"⟩ 0
          = (⟨"Lain-lain", 7, "#8884d8"⟩ : CategoryExpense).color) :=
  ⟨by decide, claimC3_amended [⟨7, none⟩] ⟨"Lain-lain", 7, "#8884d8"⟩ 0 (by decide)⟩

/-- Claim C4, counterexample: the sentinel label the code groups
uncategorized expenses under is "Lain-lain", not "Uncategorized". -/
theorem claimC4_counterexample :
    (pieData [⟨9, none⟩]).map (fun e => e.name) = ["Lain-lain"]
    ∧ ("Lain-lain" : String) ≠ "Uncategorized" :=
  ⟨by decide, by decide⟩

/-- Claim C4 as amended: with the sentinel corrected to "Lain-lain" (and
assuming linked category names are non-empty, since the code folds an
empty name into the sentinel), the breakdown returns exactly one group per
distinct category name: the labels are pairwise distinct, a label occurs
exactly when some transaction has that grouping key, transactions with no
linked category get the sentinel key, each group's value is the sum of the
amounts with its key, and when all expenses share one key the result is a
single group whose values sum to the total of all amounts. -/
theorem claimC4_amended (txs : List ExpenseRow)
    (hne : ∀ t ∈ txs, ∀ c, t.categories = some c → c.name ≠ "") :
    ((pieData txs).map (fun e => e.name)).Nodup
    ∧ (∀ l : String,
        l ∈ (pieData txs).map (fun e => e.name) ↔ ∃ t ∈ txs, claimGroupKey t = l)
    ∧ (∀ e ∈ pieData txs, e.value = claimGroupTotal txs e.name)
    ∧ (∀ t ∈ txs, t.categories = none → claimGroupKey t = "Lain-lain")
    ∧ (∀ l0 : String, txs ≠ [] → (∀ t ∈ txs, claimGroupKey t = l0) →
        (pieData txs).length = 1
        ∧ ((pieData txs).map (fun e => e.value)).sum = (txs.map (fun t => t.amount)).sum) := by
  have hkey : ∀ t ∈ txs, claimGroupKey t = effName t :=
    fun t ht => claimGroupKey_eq_effName t (hne t ht)
  refine ⟨nodup_pieData_names txs, ?_, ?_, ?_, ?_⟩
  · intro l
    rw [mem_pieData_names_iff]
    constructor
    · intro hex
      obtain ⟨t, ht, hn⟩ := hex
      refine ⟨t, ht, ?_⟩
      rw [hkey t ht]
      exact hn
    · intro hex
      obtain ⟨t, ht, hn⟩ := hex
      refine ⟨t, ht, ?_⟩
      rw [← hkey t ht]
      exact hn
  · intro e he
    have h1 := (pieData_entry_char txs e he).1
    have h2 : claimGroupTotal txs e.name = groupTotal txs e.name := by
      unfold claimGroupTotal groupTotal
      have hf : txs.filter (fun t => claimGroupKey t == e.name)
          = txs.filter (fun t => effName t == e.name) := by
        apply List.filter_congr
        intro t ht
        rw [hkey t ht]
      rw [hf]
    rw [h1]
    exact h2.symm
  · intro t ht hcat
    simp [claimGroupKey, hcat]
  · intro l0 hne0 hall
    have hlabels : (pieData txs).map (fun e => e.name) = [l0] := by
      apply nodup_all_eq_singleton _ _ (nodup_pieData_names txs)
      · intro x hx
        rw [mem_pieData_names_iff] at hx
        obtain ⟨t, ht, hn⟩ := hx
        rw [← hn, ← hkey t ht]
        exact hall t ht
      · intro hempty
        obtain ⟨t, ht⟩ := List.exists_mem_of_ne_nil txs hne0
        have hmem := (mem_pieData_names_iff txs (effName t)).mpr ⟨t, ht, rfl⟩
        rw [hempty] at hmem
        cases hmem
    have hlen : (pieData txs).length = 1 := by
      have hl := congrArg List.length hlabels
      simpa using hl
    exact ⟨hlen, pieData_value_sum txs⟩

/-- Witness for C4 at the spec's scenario input: a "Food" expense of 300
with color "#111111" and an uncategorized expense of 100. -/
theorem claimC4_witness :
    (∀ t ∈ ([⟨300, some ⟨"Food", some "#111111"⟩⟩, ⟨100, none⟩] : List ExpenseRow),
      ∀ c, t.categories = some c → c.name ≠ "")
    ∧ (((pieData [⟨300, some ⟨"Food", some "#111111"⟩⟩, ⟨100, none⟩]).map
        (fun e => e.name)).Nodup
      ∧ (∀ l : String,
          l ∈ (pieData [⟨300, some ⟨"Food", some "#111111"⟩⟩, ⟨100, none⟩]).map
            (fun e => e.name)
          ↔ ∃ t ∈ ([⟨300, some ⟨"Food", some "#111111"⟩⟩, ⟨100, none⟩] : List ExpenseRow),
              claimGroupKey t = l)
      ∧ (∀ e ∈ pieData [⟨300, some ⟨"Food", some "#111111"⟩⟩, ⟨100, none⟩],
          e.value = claimGroupTotal [⟨300, some ⟨"Food", some "#111111"⟩⟩, ⟨100, none⟩] e.name)
      ∧ (∀ t ∈ ([⟨300, some ⟨"Food", some "#111111"⟩⟩, ⟨100, none⟩] : List ExpenseRow),
          t.categories = none → claimGroupKey t = "Lain-lain")
      ∧ (∀ l0 : String,
          ([⟨300, some ⟨"Food", some "#111111"⟩⟩, ⟨100, none⟩] : List ExpenseRow) ≠ []
          → (∀ t ∈ ([⟨300, some ⟨"Food", some "#111111"⟩⟩, ⟨100, none⟩] : List ExpenseRow),
              claimGroupKey t = l0)
          → (pieData [⟨300, some ⟨"Food", some "#111111"⟩⟩, ⟨100, none⟩]).length = 1
            ∧ ((pieData [⟨300, some ⟨"Food", some "#111111"⟩⟩, ⟨100, none⟩]).map
                (fun e => e.value)).sum
              = (([⟨300, some ⟨"Food", some "#111111"⟩⟩, ⟨100, none⟩] : List ExpenseRow).map
                  (fun t => t.amount)).sum)) :=
  ⟨by decide, claimC4_amended [⟨300, some ⟨"Food", some "#111111"⟩⟩, ⟨100, none⟩] (by decide)⟩

/-- Claim C5, counterexample: the reference instant is not an explicit
parameter in the source - `fetchSummaryData` reads `new Date()` itself -
so two runs over the same rows at different wall-clock instants produce
different outputs: with the same single May-2024 income row, a run with
the clock at 2024-05-15 returns (1000, 0) while a run at 2024-07-15
returns (0, 0). -/
theorem claimC5_counterexample :
    fetchSummaryDataTotals ⟨24292, 15⟩ [⟨"income", 1000, ⟨24292, 10⟩⟩] = (1000, 0)
    ∧ fetchSummaryDataTotals ⟨24294, 15⟩ [⟨"income", 1000, ⟨24292, 10⟩⟩] = (0, 0)
    ∧ fetchSummaryDataTotals ⟨24292, 15⟩ [⟨"income", 1000, ⟨24292, 10⟩⟩]
        ≠ fetchSummaryDataTotals ⟨24294, 15⟩ [⟨"income", 1000, ⟨24292, 10⟩⟩] := by
  refine ⟨by decide, by decide, by decide⟩

/-- Claim C5 as amended: each of the four aggregations is a pure function
of its input rows and the reference instant, so two runs with the same
rows and the same instant yield identical outputs; but the source obtains
the instant implicitly from the wall clock at call time rather than as a
parameter, so runs at different instants may differ. -/
theorem claimC5_amended (txs : List Tx) (rows : List ExpenseRow)
    (accounts : List BankAccount) (assets : List Asset) (n : Nat)
    (now1 now2 : Date) (h : now1 = now2) :
    fetchSummaryDataTotals now1 txs = fetchSummaryDataTotals now2 txs
    ∧ fetchReportDataSeries now1 txs = fetchReportDataSeries now2 txs
    ∧ trailingSeries n now1 txs = trailingSeries n now2 txs
    ∧ pieData rows = pieData rows
    ∧ totalBankBalance accounts = totalBankBalance accounts
    ∧ totalAssets assets = totalAssets assets := by
  subst h
  exact ⟨rfl, rfl, rfl, rfl, rfl, rfl⟩

/-- Witness for C5 at concrete inputs and a shared instant. -/
theorem claimC5_witness :
    (⟨24292, 15⟩ : Date) = ⟨24292, 15⟩
    ∧ (fetchSummaryDataTotals ⟨24292, 15⟩ [⟨"income", 3, ⟨24292, 2⟩⟩]
        = fetchSummaryDataTotals ⟨24292, 15⟩ [⟨"income", 3, ⟨24292, 2⟩⟩]
      ∧ fetchReportDataSeries ⟨24292, 15⟩ [⟨"income", 3, ⟨24292, 2⟩⟩]
        = fetchReportDataSeries ⟨24292, 15⟩ [⟨"income", 3, ⟨24292, 2⟩⟩]
      ∧ trailingSeries 6 ⟨24292, 15⟩ [⟨"income", 3, ⟨24292, 2⟩⟩]
        = trailingSeries 6 ⟨24292, 15⟩ [⟨"income", 3, ⟨24292, 2⟩⟩]
      ∧ pieData [⟨3, none⟩] = pieData [⟨3, none⟩]
      ∧ totalBankBalance [⟨5⟩] = totalBankBalance [⟨5⟩]
      ∧ totalAssets [⟨8⟩] = totalAssets [⟨8⟩]) :=
  ⟨rfl, claimC5_amended [⟨"income", 3, ⟨24292, 2⟩⟩] [⟨3, none⟩] [⟨5⟩] [⟨8⟩] 6
    ⟨24292, 15⟩ ⟨24292, 15⟩ rfl⟩

/-- Claim C6: the trailing series with window 6 has exactly 6 entries;
entry j is the summary of calendar month now.ym - 5 + j (so the covered
months run from now minus 5 months through the month of now in strictly
ascending order, with no re-sorting); and a covered month none of whose
transactions exist still appears, with income 0 and expense 0.  The
hypothesis 5 ≤ now.ym only rules out windows reaching below the calendar
origin of the embedding. -/
theorem claimC6_theorem (txs : List Tx) (now : Date) (h5 : 5 ≤ now.ym) :
    (trailingSeries 6 now txs).length = 6
    ∧ (∀ j, j < 6 → (trailingSeries 6 now txs).getD j default
        = monthSummary txs ⟨now.ym - 5 + j, now.day⟩)
    ∧ (∀ j, j < 6 → (∀ t ∈ txs, t.transaction_date.ym ≠ now.ym - 5 + j) →
        ((trailingSeries 6 now txs).getD j default).income = 0
          ∧ ((trailingSeries 6 now txs).getD j default).expense = 0) := by
  refine ⟨trailingSeries_length 6 now txs, ?_, ?_⟩
  · intro j hj
    rw [trailingSeries_getD 6 now txs j hj]
    have harg : now.ym - (6 - 1 - j) = now.ym - 5 + j := by omega
    unfold subMonths
    rw [harg]
  · intro j hj hno
    rw [trailingSeries_getD 6 now txs j hj]
    have harg : now.ym - (6 - 1 - j) = now.ym - 5 + j := by omega
    have hd : subMonths now (6 - 1 - j) = ⟨now.ym - 5 + j, now.day⟩ := by
      unfold subMonths
      rw [harg]
    rw [hd]
    exact monthSummary_zero txs ⟨now.ym - 5 + j, now.day⟩ hno

/-- Witness for C6 with the spec scenario rows and now = 2024-05-15. -/
theorem claimC6_witness :
    5 ≤ (⟨24292, 15⟩ : Date).ym
    ∧ ((trailingSeries 6 ⟨24292, 15⟩ [⟨"income", 1000, ⟨24292, 10⟩⟩]).length = 6
      ∧ (∀ j, j < 6 → (trailingSeries 6 ⟨24292, 15⟩ [⟨"income", 1000, ⟨24292, 10⟩⟩]).getD j default
          = monthSummary [⟨"income", 1000, ⟨24292, 10⟩⟩] ⟨(⟨24292, 15⟩ : Date).ym - 5 + j, (⟨24292, 15⟩ : Date).day⟩)
      ∧ (∀ j, j < 6 → (∀ t ∈ ([⟨"income", 1000, ⟨24292, 10⟩⟩] : List Tx),
            t.transaction_date.ym ≠ (⟨24292, 15⟩ : Date).ym - 5 + j) →
          ((trailingSeries 6 ⟨24292, 15⟩ [⟨"income", 1000, ⟨24292, 10⟩⟩]).getD j default).income = 0
            ∧ ((trailingSeries 6 ⟨24292, 15⟩ [⟨"income", 1000, ⟨24292, 10⟩⟩]).getD j default).expense = 0)) :=
  ⟨by decide, claimC6_theorem [⟨"income", 1000, ⟨24292, 10⟩⟩] ⟨24292, 15⟩ (by decide)⟩

/-- Claim C7: over any transaction set with real (valid-day) dates, the
sum of the incomes of the trailing-series entries equals the income total
across exactly the n covered calendar months - the rows of the covered
window, each counted once - and likewise for expense. -/
theorem claimC7_theorem (n : Nat) (now : Date) (txs : List Tx)
    (hn : 1 ≤ n) (hym : n - 1 ≤ now.ym)
    (hday : ∀ t ∈ txs, validDay t.transaction_date) :
    ((trailingSeries n now txs).map (fun e => e.income)).sum
      = (((txs.filter (fun t => Nat.ble (now.ym - (n - 1)) t.transaction_date.ym
          && Nat.ble t.transaction_date.ym now.ym)).filter
          (fun t => t.type == "income")).map (fun t => t.amount)).sum
    ∧ ((trailingSeries n now txs).map (fun e => e.expense)).sum
      = (((txs.filter (fun t => Nat.ble (now.ym - (n - 1)) t.transaction_date.ym
          && Nat.ble t.transaction_date.ym now.ym)).filter
          (fun t => t.type == "expense")).map (fun t => t.amount)).sum := by
  constructor
  · have hmap : (trailingSeries n now txs).map (fun e => e.income)
        = (List.range n).map (fun i =>
            (((txs.filter (fun t => t.type == "income")).filter
              (fun t => t.transaction_date.ym == now.ym - (n - 1 - i))).map
              (fun t => t.amount)).sum) := by
      unfold trailingSeries
      rw [List.map_map]
      apply List.map_congr_left
      intro i _
      show (monthSummary txs (subMonths now (n - 1 - i))).income = _
      rw [monthSummary_income txs _ hday, incomeOfYm_comm]
      rfl
    rw [hmap]
    exact series_window_sum txs now n "income" hn hym
  · have hmap : (trailingSeries n now txs).map (fun e => e.expense)
        = (List.range n).map (fun i =>
            (((txs.filter (fun t => t.type == "expense")).filter
              (fun t => t.transaction_date.ym == now.ym - (n - 1 - i))).map
              (fun t => t.amount)).sum) := by
      unfold trailingSeries
      rw [List.map_map]
      apply List.map_congr_left
      intro i _
      show (monthSummary txs (subMonths now (n - 1 - i))).expense = _
      rw [monthSummary_expense txs _ hday, expenseOfYm_comm]
      rfl
    rw [hmap]
    exact series_window_sum txs now n "expense" hn hym

/-- Witness for C7: the spec scenario rows, n = 3, now = 2024-05-15. -/
theorem claimC7_witness :
    1 ≤ 3 ∧ 3 - 1 ≤ (⟨24292, 15⟩ : Date).ym
    ∧ (∀ t ∈ ([⟨"income", 1000, ⟨24292, 10⟩⟩, ⟨"expense", 400, ⟨24292, 12⟩⟩,
        ⟨"expense", 200, ⟨24291, 1⟩⟩] : List Tx), validDay t.transaction_date)
    ∧ (((trailingSeries 3 ⟨24292, 15⟩ [⟨"income", 1000, ⟨24292, 10⟩⟩,
          ⟨"expense", 400, ⟨24292, 12⟩⟩, ⟨"expense", 200, ⟨24291, 1⟩⟩]).map
          (fun e => e.income)).sum
        = (((([⟨"income", 1000, ⟨24292, 10⟩⟩, ⟨"expense", 400, ⟨24292, 12⟩⟩,
            ⟨"expense", 200, ⟨24291, 1⟩⟩] : List Tx).filter
            (fun t => Nat.ble ((⟨24292, 15⟩ : Date).ym - (3 - 1)) t.transaction_date.ym
              && Nat.ble t.transaction_date.ym (⟨24292, 15⟩ : Date).ym)).filter
            (fun t => t.type == "income")).map (fun t => t.amount)).sum
      ∧ ((trailingSeries 3 ⟨24292, 15⟩ [⟨"income", 1000, ⟨24292, 10⟩⟩,
          ⟨"expense", 400, ⟨24292, 12⟩⟩, ⟨"expense", 200, ⟨24291, 1⟩⟩]).map
          (fun e => e.expense)).sum
        = (((([⟨"income", 1000, ⟨24292, 10⟩⟩, ⟨"expense", 400, ⟨24292, 12⟩⟩,
            ⟨"expense", 200, ⟨24291, 1⟩⟩] : List Tx).filter
            (fun t => Nat.ble ((⟨24292, 15⟩ : Date).ym - (3 - 1)) t.transaction_date.ym
              && Nat.ble t.transaction_date.ym (⟨24292, 15⟩ : Date).ym)).filter
            (fun t => t.type == "expense")).map (fun t => t.amount)).sum) :=
  ⟨by decide, by decide, by decide,
    claimC7_theorem 3 ⟨24292, 15⟩ [⟨"income", 1000, ⟨24292, 10⟩⟩,
      ⟨"expense", 400, ⟨24292, 12⟩⟩, ⟨"expense", 200, ⟨24291, 1⟩⟩]
      (by decide) (by decide) (by decide)⟩

/-- Claim C8: the point-in-time totals sum balance over all bank accounts
and current_value over all assets with no date filtering (the totals equal
the plain sums over every row), each total is 0 on the empty list, and
every aggregate yields a well-defined zero or empty result on empty input:
the monthly totals are (0, 0), every trailing-series entry has zero income
and expense, and the breakdown is empty. -/
theorem claimC8_theorem (accounts : List BankAccount) (assets : List Asset)
    (now : Date) (n : Nat) :
    totalBankBalance accounts = (accounts.map (fun a => a.balance)).sum
    ∧ totalAssets assets = (assets.map (fun a => a.current_value)).sum
    ∧ totalBankBalance [] = 0
    ∧ totalAssets [] = 0
    ∧ monthlyTotals [] now = (0, 0)
    ∧ ((trailingSeries n now []).all (fun e => e.income == 0 && e.expense == 0)) = true
    ∧ pieData [] = [] := by
  refine ⟨?_, ?_, rfl, rfl, rfl, ?_, rfl⟩
  · rw [show totalBankBalance accounts
      = accounts.foldl (fun sum a => sum + a.balance) 0 from rfl, foldl_add_map]
    simp
  · rw [show totalAssets assets
      = assets.foldl (fun sum a => sum + a.current_value) 0 from rfl, foldl_add_map]
    simp
  · rw [List.all_eq_true]
    intro e he
    unfold trailingSeries at he
    obtain ⟨i, hi, hei⟩ := List.mem_map.mp he
    rw [← hei]
    simp [monthSummary, monthRows]

/-- Claim C9: grouping partitions the input - the group values of the
breakdown sum to the total of all input amounts, and the group labels are
pairwise distinct. -/
theorem claimC9_theorem (txs : List ExpenseRow) :
    ((pieData txs).map (fun e => e.value)).sum = (txs.map (fun t => t.amount)).sum
    ∧ ((pieData txs).map (fun e => e.name)).Nodup :=
  ⟨pieData_value_sum txs, nodup_pieData_names txs⟩

/-- Claim C10, counterexample: the single transaction's category color is
present - it is the empty string - yet the group's color is the constant
"#8884d8", because the source's falsy-coalescing `||` also replaces a
present empty color; this refutes "that transaction's category color if
present". -/
theorem claimC10_counterexample :
    pieData [⟨5, some ⟨"A", some ""⟩⟩] = [⟨"A", 5, "#8884d8"⟩]
    ∧ ("#8884d8" : String) ≠ "" :=
  ⟨by decide, by decide⟩

/-- Claim C10 as amended: each group's color is fixed by the first
transaction of its grouping key in input order - that transaction's
category color if present and non-empty, else the constant "#8884d8"
(which is what `effColor` computes) - so later transactions never affect
it; and permuting the input can change a group's color but never its
value: groups with the same label in the outputs of two permuted inputs
have equal values. -/
theorem claimC10_amended (txs txs' : List ExpenseRow) (e e' : CategoryExpense)
    (hp : txs.Perm txs') (he : e ∈ pieData txs) (he' : e' ∈ pieData txs')
    (hname : e'.name = e.name) :
    (∃ t0, txs.find? (fun t => effName t == e.name) = some t0 ∧ e.color = effColor t0)
    ∧ e'.value = e.value := by
  obtain ⟨hval, t0, hf, hc⟩ := pieData_entry_char txs e he
  obtain ⟨hval', t0', hf', hc'⟩ := pieData_entry_char txs' e' he'
  refine ⟨⟨t0, hf, hc⟩, ?_⟩
  rw [hval, hval', hname, groupTotal_perm txs' txs e.name hp.symm]

/-- Witness for C10: two rows swapped; the "A" group keeps value 3 in both
orders and its color comes from the first "A" row. -/
theorem claimC10_witness :
    ([⟨3, some ⟨"A", some "#111111"⟩⟩, ⟨4, none⟩] : List ExpenseRow).Perm
      [⟨4, none⟩, ⟨3, some ⟨"A", some "#111111"⟩⟩]
    ∧ (⟨"A", 3, "#111111"⟩ : CategoryExpense)
        ∈ pieData [⟨3, some ⟨"A", some "#111111"⟩⟩, ⟨4, none⟩]
    ∧ (⟨"A", 3, "#111111"⟩ : CategoryExpense)
        ∈ pieData [⟨4, none⟩, ⟨3, some ⟨"A", some "#111111"⟩⟩]
    ∧ ((∃ t0, ([⟨3, some ⟨"A", some "#111111"⟩⟩, ⟨4, none⟩] : List ExpenseRow).find?
          (fun t => effName t == (⟨"A", 3, "#111111"⟩ : CategoryExpense).name) = some t0
          ∧ (⟨"A", 3, "#111111"⟩ : CategoryExpense).color = effColor t0)
      ∧ (⟨"A", 3, "#111111"⟩ : CategoryExpense).value
          = (⟨"A", 3, "#111111"⟩ : CategoryExpense).value) :=
  ⟨by decide, by decide, by decide,
    claimC10_amended [⟨3, some ⟨"A", some "#111111"⟩⟩, ⟨4, none⟩]
      [⟨4, none⟩, ⟨3, some ⟨"A", some "#111111"⟩⟩]
      ⟨"A", 3, "#111111"⟩ ⟨"A", 3, "#111111"⟩
      (by decide) (by decide) (by decide) rfl⟩

end Claims

end FinTrack
